import Mathlib

/-!
Shallow embedding of the override-resolution decorator `overridable` from
`src/ecommerce/decorators.py`.

The decorator wraps a base function `func`, marks it with the attributes
`overridable = True` and a fresh `handler_cache` dict, and at call time:
  * computes `cache_key = hash(mro + (func.__name__,))` from the instance
    class MRO and the function name;
  * on a cache hit returns the cached handler without re-scanning;
  * otherwise collects `{getattr(cls, func.__name__) for cls in mro if
    hasattr(cls, func.__name__)}`, keeps those with an `overrides`
    attribute, sorts them by `priority` (default 1) descending;
  * if the two first sorted handlers share a priority it raises an
    `AttributeError` naming both (the spec calls this
    `AmbiguousOverrideError`) without touching the cache;
  * otherwise it picks the first handler, or `func` when none exist,
    stores it in the cache and invokes it with the original instance
    and arguments forwarded unchanged.

Modelling conventions:
  * A Python function object is a `Method`: `id` models object identity
    (set-deduplication of function objects), `name` models `__name__`,
    `overrides` models `hasattr(f, "overrides")`, `priority` models the
    optional `priority` attribute (`getattr(x, "priority", 1)`).
  * A class is its attribute-lookup capability: `Cls.getattr` models
    `getattr(cls, name)` / `hasattr(cls, name)` as an association list.
  * The cache key `hash(mro + (name,))` is modelled by the pair
    `(mro, name)` itself (the hash is assumed collision-free); the cache
    is a function from keys to optional methods (a Python dict).
  * Python's set has no specified iteration order before `sorted` runs;
    the model fixes MRO-order with first occurrences kept, and uses a
    stable insertion sort, matching the stable `sorted(..., reverse=True)`.
  * `ResolveOut.scanned` records whether the slow path (the hierarchy
    scan) ran, the observable the spec calls a scan-counter.
-/

/-- A candidate implementation: a Python function object together with the
attributes the decorator inspects. -/
structure Method where
  id : Nat
  name : String
  overrides : Bool
  priority : Option Int
  deriving DecidableEq, Repr

/-- `getattr(x, "priority", 1)`: the priority attribute, defaulting to 1. -/
def Method.priorityVal (m : Method) : Int :=
  m.priority.getD 1

/-- A class in the hierarchy, reduced to its attribute-lookup capability:
`attrs` lists the methods reachable as attributes of the class. -/
structure Cls where
  attrs : List (String × Method)
  deriving DecidableEq, Repr

/-- `getattr(cls, name)` when `hasattr(cls, name)`, else `none`. -/
def Cls.getattr (c : Cls) (name : String) : Option Method :=
  (c.attrs.find? (fun p => p.1 == name)).map (fun p => p.2)

/-- `{getattr(cls, func.__name__) for cls in mro if hasattr(cls, func.__name__)}`
before set-deduplication: every hit, in MRO order. -/
def rawCandidates (mro : List Cls) (name : String) : List Method :=
  mro.filterMap (fun c => c.getattr name)

/-- Set-deduplication by object identity, keeping first occurrences. -/
def dedupAux : List Method → List Method → List Method
  | [], _ => []
  | m :: ms, seen =>
      if m ∈ seen then dedupAux ms seen else m :: dedupAux ms (m :: seen)

/-- The deduplicated candidate list (Python's set of candidate functions). -/
def dedupFirst (l : List Method) : List Method :=
  dedupAux l []

/-- `{f for f in candidates if hasattr(f, "overrides")}`: the distinct
candidates flagged as overrides, in MRO order. -/
def overrideCandidates (mro : List Cls) (name : String) : List Method :=
  (dedupFirst (rawCandidates mro name)).filter (fun m => m.overrides)

/-- One step of a stable descending insertion sort by `priorityVal`:
`m` goes after every element of priority at least its own. -/
def insertDesc (m : Method) : List Method → List Method
  | [] => [m]
  | x :: xs =>
      if x.priorityVal < m.priorityVal then m :: x :: xs
      else x :: insertDesc m xs

/-- `sorted(..., key=lambda x: getattr(x, "priority", 1), reverse=True)`:
stable sort by priority, highest first. -/
def sortDesc (l : List Method) : List Method :=
  l.foldl (fun acc m => insertDesc m acc) []

/-- The sorted handler list the decorator chooses from. -/
def sortedHandlers (mro : List Cls) (name : String) : List Method :=
  sortDesc (overrideCandidates mro name)

/-- The resolution errors. `ambiguous` models the `AttributeError` raised
when the two first sorted handlers share a priority; it carries both tied
candidates, which the raised message names. -/
inductive ResolveError where
  | ambiguous (first second : Method)
  deriving DecidableEq, Repr

/-- The message of the raised error, naming both tied candidates. -/
def ResolveError.message : ResolveError → String
  | .ambiguous f s =>
      "Cannot find a more specific overriding method: " ++ f.name ++
      " or " ++ s.name ++ ". Use the priority param."

/-- `hash(mro + (func.__name__,))`, modelled collision-free as the pair. -/
abbrev CacheKey := List Cls × String

/-- The per-function `handler_cache` dict. -/
abbrev Cache := CacheKey → Option Method

/-- The fresh `dict()` the decorator attaches to the function. -/
def emptyCache : Cache := fun _ => none

/-- `func.handler_cache[cache_key] = handler`. -/
def cacheInsert (c : Cache) (k : CacheKey) (m : Method) : Cache :=
  fun k2 => if k2 = k then some m else c k2

/-- The cache key of a call: MRO plus the decorated function's name. -/
def cacheKey (func : Method) (mro : List Cls) : CacheKey :=
  (mro, func.name)

/-- The slow path of the wrapper: scan the hierarchy, sort the override
candidates, fail when the two first share a priority, otherwise pick the
first handler or fall back to `func`. -/
def freshChoice (func : Method) (mro : List Cls) : Except ResolveError Method :=
  match sortedHandlers mro func.name with
  | h1 :: h2 :: _ =>
      if h1.priorityVal = h2.priorityVal then
        Except.error (ResolveError.ambiguous h1 h2)
      else Except.ok h1
  | [h1] => Except.ok h1
  | [] => Except.ok func

/-- Outcome of one resolution: the chosen handler or the raised error, the
cache after the call, and whether the hierarchy was scanned. -/
structure ResolveOut where
  result : Except ResolveError Method
  cache : Cache
  scanned : Bool

/-- The wrapper's resolution step: cache hit returns the cached handler
without scanning; otherwise the slow path runs, and its choice is stored
in the cache before returning — the raise happens before the store, so an
error leaves the cache untouched. -/
def resolve (func : Method) (mro : List Cls) (cache : Cache) : ResolveOut :=
  match cache (cacheKey func mro) with
  | some h => ⟨Except.ok h, cache, false⟩
  | none =>
      match freshChoice func mro with
      | Except.ok h => ⟨Except.ok h, cacheInsert cache (cacheKey func mro) h, true⟩
      | Except.error e => ⟨Except.error e, cache, true⟩

/-- `return handler(instance, *args, **kwargs)`: the resolved handler is
invoked with the call data `x` forwarded unchanged; `impl` gives each
method its behaviour. -/
def wrapperCall {α β : Type} (impl : Method → α → β) (func : Method)
    (mro : List Cls) (cache : Cache) (x : α) : Except ResolveError β × Cache :=
  match resolve func mro cache with
  | ⟨Except.ok h, c2, _⟩ => (Except.ok (impl h x), c2)
  | ⟨Except.error e, c2, _⟩ => (Except.error e, c2)

/-- Each decorated function owns its own `handler_cache`; the global state
maps a function object to its cache. -/
abbrev Store := Method → Cache

/-- Resolution through the store of per-function caches: read the
function's own cache, resolve, write its own cache back. -/
def resolveStore (store : Store) (func : Method) (mro : List Cls) :
    ResolveOut × Store :=
  (resolve func mro (store func),
   fun g => if g = func then (resolve func mro (store func)).cache else store g)

-- Basic cache lemmas

theorem cacheInsert_self (c : Cache) (k : CacheKey) (m : Method) :
    cacheInsert c k m k = some m := by
  simp [cacheInsert]

theorem cacheInsert_ne (c : Cache) (k : CacheKey) (m : Method) (k2 : CacheKey)
    (h : k2 ≠ k) : cacheInsert c k m k2 = c k2 := by
  simp [cacheInsert, h]

-- Unfolding lemmas for the three paths of `resolve`

theorem resolve_hit (func : Method) (mro : List Cls) (cache : Cache) (h : Method)
    (hc : cache (cacheKey func mro) = some h) :
    resolve func mro cache = ⟨Except.ok h, cache, false⟩ := by
  simp [resolve, hc]

theorem resolve_miss_ok (func : Method) (mro : List Cls) (cache : Cache) (h : Method)
    (hc : cache (cacheKey func mro) = none)
    (hf : freshChoice func mro = Except.ok h) :
    resolve func mro cache =
      ⟨Except.ok h, cacheInsert cache (cacheKey func mro) h, true⟩ := by
  simp [resolve, hc, hf]

theorem resolve_miss_err (func : Method) (mro : List Cls) (cache : Cache)
    (e : ResolveError) (hc : cache (cacheKey func mro) = none)
    (hf : freshChoice func mro = Except.error e) :
    resolve func mro cache = ⟨Except.error e, cache, true⟩ := by
  simp [resolve, hc, hf]

-- Concrete scenario from the spec: `Base` declares the overridable
-- operation, mixins `A` and `B` declare override candidates, and
-- `View(Base, A, B)` combines them.

def opName : String := "get_serializer_context"

/-- The decorated base function declared by `Base` (no `overrides` flag). -/
def baseM : Method := ⟨0, opName, false, none⟩

/-- Mixin `A`'s override candidate at priority 1. -/
def aM1 : Method := ⟨1, opName, true, some 1⟩

/-- Mixin `B`'s override candidate at priority 2. -/
def bM2 : Method := ⟨2, opName, true, some 2⟩

/-- Mixin `A`'s candidate after the priority swap (priority 2). -/
def aM2 : Method := ⟨1, opName, true, some 2⟩

/-- Mixin `B`'s candidate after the priority swap (priority 1). -/
def bM1 : Method := ⟨2, opName, true, some 1⟩

def clsBase : Cls := ⟨[(opName, baseM)]⟩

/-- `getattr(View, opName)` finds the base wrapper through inheritance. -/
def clsView : Cls := ⟨[(opName, baseM)]⟩

def mroView : List Cls := [clsView, clsBase, ⟨[(opName, aM1)]⟩, ⟨[(opName, bM2)]⟩]

def mroSwap : List Cls := [clsView, clsBase, ⟨[(opName, aM2)]⟩, ⟨[(opName, bM1)]⟩]

/-- First candidate of the equal-priority pair. -/
def tieA : Method := ⟨1, opName, true, some 2⟩

/-- Second candidate of the equal-priority pair. -/
def tieB : Method := ⟨2, opName, true, some 2⟩

def mroTie : List Cls := [clsBase, ⟨[(opName, tieA)]⟩, ⟨[(opName, tieB)]⟩]

/-- A strictly highest candidate above the tied pair (priorities 3, 2, 2). -/
def topM : Method := ⟨3, opName, true, some 3⟩

def mroTriple : List Cls :=
  [clsBase, ⟨[(opName, topM)]⟩, ⟨[(opName, tieA)]⟩, ⟨[(opName, tieB)]⟩]

-- Sorting helper lemmas

theorem sortDesc_nil : sortDesc [] = [] := rfl

theorem sortDesc_single (a : Method) : sortDesc [a] = [a] := rfl

theorem sortDesc_pair (a b : Method) :
    sortDesc [a, b] = if a.priorityVal < b.priorityVal then [b, a] else [a, b] := by
  simp [sortDesc, insertDesc]

/-- C3: for a hierarchy whose override candidates are exactly two methods of
distinct priorities (cache cold for this key), `resolve` returns the
higher-priority candidate. -/
theorem resolve_two_distinct_priorities_highest_wins (func : Method)
    (mro : List Cls) (cache : Cache) (a b : Method)
    (hc : cache (cacheKey func mro) = none)
    (hov : overrideCandidates mro func.name = [a, b])
    (hne : a.priorityVal ≠ b.priorityVal) :
    (resolve func mro cache).result =
      Except.ok (if b.priorityVal < a.priorityVal then a else b) := by
  have hs : sortedHandlers mro func.name =
      if a.priorityVal < b.priorityVal then [b, a] else [a, b] := by
    unfold sortedHandlers
    rw [hov]
    exact sortDesc_pair a b
  rcases hne.lt_or_lt with hab | hba
  · rw [if_pos hab] at hs
    have hf : freshChoice func mro = Except.ok b := by
      simp [freshChoice, hs, Ne.symm (ne_of_lt hab)]
    rw [resolve_miss_ok func mro cache b hc hf, if_neg (lt_asymm hab)]
  · rw [if_neg (lt_asymm hba)] at hs
    have hf : freshChoice func mro = Except.ok a := by
      simp [freshChoice, hs, hne]
    rw [resolve_miss_ok func mro cache a hc hf, if_pos hba]

/-- C3 witness: `View(Base, A, B)` with `A` at priority 1 and `B` at
priority 2 resolves to `B`'s implementation; with the priorities swapped it
resolves to `A`'s implementation. -/
theorem resolve_two_distinct_priorities_highest_wins_witness :
    (resolve baseM mroView emptyCache).result = Except.ok bM2 ∧
    (resolve baseM mroSwap emptyCache).result = Except.ok aM2 := by
  constructor
  · have h := resolve_two_distinct_priorities_highest_wins baseM mroView
      emptyCache aM1 bM2 rfl rfl (by decide)
    rw [if_neg (by decide)] at h
    exact h
  · have h := resolve_two_distinct_priorities_highest_wins baseM mroSwap
      emptyCache aM2 bM1 rfl rfl (by decide)
    rw [if_pos (by decide)] at h
    exact h

/-- C4: for a hierarchy with exactly one override candidate (cache cold),
`resolve` returns that candidate, whatever its priority field holds. -/
theorem resolve_single_candidate_returned (func : Method) (mro : List Cls)
    (cache : Cache) (a : Method)
    (hc : cache (cacheKey func mro) = none)
    (hov : overrideCandidates mro func.name = [a]) :
    (resolve func mro cache).result = Except.ok a := by
  have hs : sortedHandlers mro func.name = [a] := by
    unfold sortedHandlers
    rw [hov]
    exact sortDesc_single a
  have hf : freshChoice func mro = Except.ok a := by
    simp [freshChoice, hs]
  rw [resolve_miss_ok func mro cache a hc hf]

/-- C4 witness: a hierarchy exposing only mixin `A`'s candidate (with no
explicit priority) resolves to it. -/
theorem resolve_single_candidate_returned_witness :
    (resolve baseM [clsBase, ⟨[(opName, Method.mk 1 opName true none)]⟩]
      emptyCache).result = Except.ok (Method.mk 1 opName true none) :=
  resolve_single_candidate_returned baseM
    [clsBase, ⟨[(opName, Method.mk 1 opName true none)]⟩] emptyCache
    (Method.mk 1 opName true none) rfl rfl

/-- C5: for a hierarchy with zero override candidates (cache cold),
`resolve` returns the base implementation, the decorated function itself. -/
theorem resolve_no_candidates_returns_base (func : Method) (mro : List Cls)
    (cache : Cache)
    (hc : cache (cacheKey func mro) = none)
    (hov : overrideCandidates mro func.name = []) :
    (resolve func mro cache).result = Except.ok func := by
  have hs : sortedHandlers mro func.name = [] := by
    unfold sortedHandlers
    rw [hov]
    exact sortDesc_nil
  have hf : freshChoice func mro = Except.ok func := by
    simp [freshChoice, hs]
  rw [resolve_miss_ok func mro cache func hc hf]

/-- C5 witness: a hierarchy holding only the base declaration resolves to
the base implementation. -/
theorem resolve_no_candidates_returns_base_witness :
    (resolve baseM [clsView, clsBase] emptyCache).result = Except.ok baseM :=
  resolve_no_candidates_returns_base baseM [clsView, clsBase] emptyCache rfl rfl

/-- C6: when the sorted handler list has three or more entries, the top
priority strictly highest and the second and third tied (for example
priorities 3, 2, 2), no ambiguity error is raised and the top candidate is
returned — only a tie between the two first sorted handlers is fatal. -/
theorem resolve_lower_tie_not_ambiguous (func : Method) (mro : List Cls)
    (cache : Cache) (h1 h2 h3 : Method) (rest : List Method)
    (hc : cache (cacheKey func mro) = none)
    (hs : sortedHandlers mro func.name = h1 :: h2 :: h3 :: rest)
    (htop : h2.priorityVal < h1.priorityVal)
    (htie : h2.priorityVal = h3.priorityVal) :
    (resolve func mro cache).result = Except.ok h1 := by
  have hf : freshChoice func mro = Except.ok h1 := by
    simp [freshChoice, hs, Ne.symm (ne_of_lt htop)]
  rw [resolve_miss_ok func mro cache h1 hc hf]

/-- C6 witness: candidates at priorities 3, 2, 2 resolve to the priority-3
candidate without an ambiguity error. -/
theorem resolve_lower_tie_not_ambiguous_witness :
    (resolve baseM mroTriple emptyCache).result = Except.ok topM :=
  resolve_lower_tie_not_ambiguous baseM mroTriple emptyCache topM tieA tieB []
    rfl rfl (by decide) (by decide)

/-- C1: when the override candidates number at least two and the two
highest-priority (first two sorted) candidates share a priority (cache
cold), `resolve` raises the ambiguity error carrying both tied candidates
instead of returning any candidate or the base implementation. -/
theorem resolve_top_tie_raises_ambiguous (func : Method) (mro : List Cls)
    (cache : Cache) (h1 h2 : Method) (rest : List Method)
    (hc : cache (cacheKey func mro) = none)
    (hs : sortedHandlers mro func.name = h1 :: h2 :: rest)
    (htie : h1.priorityVal = h2.priorityVal) :
    (resolve func mro cache).result =
      Except.error (ResolveError.ambiguous h1 h2) := by
  have hf : freshChoice func mro =
      Except.error (ResolveError.ambiguous h1 h2) := by
    simp [freshChoice, hs, htie]
  rw [resolve_miss_err func mro cache _ hc hf]

/-- C1 witness: two candidates at equal priority 2 make resolution fail
with the error naming both. -/
theorem resolve_top_tie_raises_ambiguous_witness :
    (resolve baseM mroTie emptyCache).result =
      Except.error (ResolveError.ambiguous tieA tieB) :=
  resolve_top_tie_raises_ambiguous baseM mroTie emptyCache tieA tieB []
    rfl rfl (by decide)

/-- C2: resolution is deterministic and idempotent — after a successful
call, a second call with the hierarchy and name unchanged returns the
identical candidate, does not re-scan (it reads the cached entry), and
leaves the cache as it was. -/
theorem resolve_idempotent_cached (func : Method) (mro : List Cls)
    (cache : Cache) (h : Method)
    (hres : (resolve func mro cache).result = Except.ok h) :
    (resolve func mro (resolve func mro cache).cache).result = Except.ok h ∧
    (resolve func mro (resolve func mro cache).cache).scanned = false ∧
    (resolve func mro (resolve func mro cache).cache).cache =
      (resolve func mro cache).cache := by
  cases hc : cache (cacheKey func mro) with
  | some h0 =>
      have e1 := resolve_hit func mro cache h0 hc
      rw [e1] at hres
      simp only [Except.ok.injEq] at hres
      subst hres
      have e2 := resolve_hit func mro cache h0 hc
      simp [e1, e2]
  | none =>
      cases hf : freshChoice func mro with
      | error e =>
          rw [resolve_miss_err func mro cache e hc hf] at hres
          simp at hres
      | ok h0 =>
          have e1 := resolve_miss_ok func mro cache h0 hc hf
          rw [e1] at hres
          simp only [Except.ok.injEq] at hres
          subst hres
          have e2 := resolve_hit func mro
            (cacheInsert cache (cacheKey func mro) h0) h0
            (cacheInsert_self cache (cacheKey func mro) h0)
          simp [e1, e2]

/-- C2 witness: resolving the concrete `View` hierarchy twice returns
`B`'s candidate both times and the second call does not scan. -/
theorem resolve_idempotent_cached_witness :
    (resolve baseM mroView (resolve baseM mroView emptyCache).cache).result =
      Except.ok bM2 ∧
    (resolve baseM mroView (resolve baseM mroView emptyCache).cache).scanned =
      false ∧
    (resolve baseM mroView (resolve baseM mroView emptyCache).cache).cache =
      (resolve baseM mroView emptyCache).cache :=
  resolve_idempotent_cached baseM mroView emptyCache bM2 rfl

/-- A function whose operation name appears nowhere in the hierarchy. -/
def ghostFunc : Method := ⟨7, "ghost", false, none⟩

/-- A class with no attributes at all. -/
def emptyCls : Cls := ⟨[]⟩

/-- C7 counterexample: a hierarchy in which neither an override candidate
nor a base implementation of the operation exists; `resolve` does not fail
— it returns (and caches) the decorated function held in closure, so no
missing-operation failure is ever produced. -/
theorem resolve_missing_op_counterexample :
    rawCandidates [emptyCls] ghostFunc.name = [] ∧
    overrideCandidates [emptyCls] ghostFunc.name = [] ∧
    (resolve ghostFunc [emptyCls] emptyCache).result = Except.ok ghostFunc ∧
    (resolve ghostFunc [emptyCls] emptyCache).cache
      (cacheKey ghostFunc [emptyCls]) = some ghostFunc :=
  ⟨rfl, rfl, rfl, rfl⟩

/-- C7 amended: when the hierarchy exposes no implementation of the
operation at all (cache cold), `resolve` does not raise any error — the
code has no missing-operation error; it falls back to the decorated base
function held in closure, stores it under the cache key, and returns it. -/
theorem resolve_missing_op_falls_back (func : Method) (mro : List Cls)
    (cache : Cache)
    (hc : cache (cacheKey func mro) = none)
    (hraw : rawCandidates mro func.name = []) :
    (resolve func mro cache).result = Except.ok func ∧
    (resolve func mro cache).cache (cacheKey func mro) = some func := by
  have hov : overrideCandidates mro func.name = [] := by
    unfold overrideCandidates
    rw [hraw]
    rfl
  have hs : sortedHandlers mro func.name = [] := by
    unfold sortedHandlers
    rw [hov]
    exact sortDesc_nil
  have hf : freshChoice func mro = Except.ok func := by
    simp [freshChoice, hs]
  rw [resolve_miss_ok func mro cache func hc hf]
  exact ⟨rfl, cacheInsert_self cache (cacheKey func mro) func⟩

/-- C7 amended witness: the fallback at the concrete empty hierarchy. -/
theorem resolve_missing_op_falls_back_witness :
    (resolve ghostFunc [emptyCls, emptyCls] emptyCache).result =
      Except.ok ghostFunc ∧
    (resolve ghostFunc [emptyCls, emptyCls] emptyCache).cache
      (cacheKey ghostFunc [emptyCls, emptyCls]) = some ghostFunc :=
  resolve_missing_op_falls_back ghostFunc [emptyCls, emptyCls] emptyCache
    rfl rfl

/-- A second decorated operation with a different name, for independence. -/
def otherFunc : Method := ⟨9, "perform_create", false, none⟩

/-- An override candidate for the second operation. -/
def otherOv : Method := ⟨10, "perform_create", true, some 2⟩

def mroOther : List Cls := [⟨[("perform_create", otherFunc)]⟩,
  ⟨[("perform_create", otherOv)]⟩]

/-- The store in which every function starts with its fresh empty cache. -/
def store0 : Store := fun _ => emptyCache

/-- C8: operations with distinct names resolve independently — each
decorated function owns its own cache, so resolving one never reads or
writes the other's cache, and the other's subsequent resolution (result
and its own cache) is exactly what it would have been without the first
resolution. -/
theorem resolve_distinct_operations_independent (store : Store)
    (f g : Method) (mro1 mro2 : List Cls)
    (hname : f.name ≠ g.name) :
    (resolveStore store f mro1).2 g = store g ∧
    (resolveStore (resolveStore store f mro1).2 g mro2).1 =
      (resolveStore store g mro2).1 ∧
    (resolveStore (resolveStore store f mro1).2 g mro2).2 g =
      (resolveStore store g mro2).2 g := by
  have hgf : g ≠ f := fun h => hname (by rw [h])
  have h1 : (resolveStore store f mro1).2 g = store g := by
    simp [resolveStore, hgf]
  refine ⟨h1, ?_, ?_⟩
  · simp [resolveStore, hgf]
  · simp [resolveStore, hgf]

/-- C8 witness: resolving the serializer-context operation leaves the
perform-create operation's cache empty and its resolution unchanged. -/
theorem resolve_distinct_operations_independent_witness :
    (resolveStore store0 baseM mroView).2 otherFunc = store0 otherFunc ∧
    (resolveStore (resolveStore store0 baseM mroView).2 otherFunc mroOther).1 =
      (resolveStore store0 otherFunc mroOther).1 ∧
    (resolveStore (resolveStore store0 baseM mroView).2 otherFunc mroOther).2
        otherFunc =
      (resolveStore store0 otherFunc mroOther).2 otherFunc :=
  resolve_distinct_operations_independent store0 baseM otherFunc mroView
    mroOther (by decide)

/-- C9: on a successful resolution the only state change is the cache —
the chosen candidate sits under the cache key when the call returns and
every other key is untouched — and the wrapper invokes the chosen
implementation with the call data forwarded unchanged. -/
theorem resolve_success_frame {α β : Type} (impl : Method → α → β) (x : α)
    (func : Method) (mro : List Cls) (cache : Cache) (h : Method)
    (hres : (resolve func mro cache).result = Except.ok h) :
    (resolve func mro cache).cache (cacheKey func mro) = some h ∧
    (∀ k, k ≠ cacheKey func mro → (resolve func mro cache).cache k = cache k) ∧
    wrapperCall impl func mro cache x =
      (Except.ok (impl h x), (resolve func mro cache).cache) := by
  cases hc : cache (cacheKey func mro) with
  | some h0 =>
      have e1 := resolve_hit func mro cache h0 hc
      rw [e1] at hres
      simp only [Except.ok.injEq] at hres
      subst hres
      refine ⟨by rw [e1]; exact hc, fun k hk => by rw [e1], ?_⟩
      simp [wrapperCall, e1]
  | none =>
      cases hf : freshChoice func mro with
      | error e =>
          rw [resolve_miss_err func mro cache e hc hf] at hres
          simp at hres
      | ok h0 =>
          have e1 := resolve_miss_ok func mro cache h0 hc hf
          rw [e1] at hres
          simp only [Except.ok.injEq] at hres
          subst hres
          refine ⟨?_, fun k hk => ?_, ?_⟩
          · rw [e1]
            exact cacheInsert_self cache (cacheKey func mro) h0
          · rw [e1]
            exact cacheInsert_ne cache (cacheKey func mro) h0 k hk
          · simp [wrapperCall, e1]

/-- C9 witness: invoking the concrete `View` hierarchy runs `B`'s
implementation on the forwarded argument and the new cache. -/
theorem resolve_success_frame_witness :
    wrapperCall (fun m n => m.id + n) baseM mroView emptyCache 5 =
      (Except.ok ((fun (m : Method) (n : Nat) => m.id + n) bM2 5),
       (resolve baseM mroView emptyCache).cache) :=
  (resolve_success_frame (fun m n => m.id + n) 5 baseM mroView emptyCache
    bM2 rfl).2.2

/-- C10: when resolution fails on the top-priority tie, the cache is left
without an entry for the key, so the next call with the same hierarchy and
operation scans again and fails with the same error instead of hitting a
cached result. -/
theorem resolve_error_leaves_cache_unchanged (func : Method) (mro : List Cls)
    (cache : Cache) (e : ResolveError)
    (hres : (resolve func mro cache).result = Except.error e) :
    (resolve func mro cache).cache = cache ∧
    (resolve func mro cache).cache (cacheKey func mro) = none ∧
    (resolve func mro cache).scanned = true ∧
    (resolve func mro ((resolve func mro cache).cache)).result =
      Except.error e ∧
    (resolve func mro ((resolve func mro cache).cache)).scanned = true := by
  cases hc : cache (cacheKey func mro) with
  | some h0 =>
      rw [resolve_hit func mro cache h0 hc] at hres
      simp at hres
  | none =>
      cases hf : freshChoice func mro with
      | ok h0 =>
          rw [resolve_miss_ok func mro cache h0 hc hf] at hres
          simp at hres
      | error e2 =>
          have e1 := resolve_miss_err func mro cache e2 hc hf
          rw [e1] at hres
          simp only [Except.error.injEq] at hres
          subst hres
          simp [e1, hc]

/-- C10 witness: after the tied resolution fails, the key is uncached and
the second attempt re-scans and fails identically. -/
theorem resolve_error_leaves_cache_unchanged_witness :
    (resolve baseM mroTie emptyCache).cache = emptyCache ∧
    (resolve baseM mroTie emptyCache).cache (cacheKey baseM mroTie) = none ∧
    (resolve baseM mroTie emptyCache).scanned = true ∧
    (resolve baseM mroTie ((resolve baseM mroTie emptyCache).cache)).result =
      Except.error (ResolveError.ambiguous tieA tieB) ∧
    (resolve baseM mroTie ((resolve baseM mroTie emptyCache).cache)).scanned =
      true :=
  resolve_error_leaves_cache_unchanged baseM mroTie emptyCache
    (ResolveError.ambiguous tieA tieB) rfl
